import Mathlib

/-
  Verification development for the lazy computation-graph IR of
  lazy_tensor_core: TsNode construction and hashing, deferred shape
  inference, and the bounded shape cache
  (lazy_tensor_core/csrc/ts_backend/TsNode.cpp).

  Code present in TsNode.cpp is embedded directly.  Collaborators that the
  excerpt only declares or calls (the hashing primitives, the base `Node`,
  `Output`/`Value`, `lazy_tensors::Shape`, `lazy_tensors::util::Cache`,
  `GetEnvInt`) are modelled from the spec, as marked on each definition.
-/

namespace LazyIR

/-- Modelled from the spec: the `hash_t` value domain together with the
`combine` primitive of §4.1 ("order-sensitive, deterministic mixing
function", "free of collisions for distinct pairs within practical
confidence").  The spec idealises hashing as collision-free, so hash values
are modelled as the free structure generated by atomic hashes and the
binary combiner: `base` is the hash of an atom (rendered as a string) and
`comb` is the order-sensitive combination. -/
inductive hash_t where
  | base : String → hash_t
  | comb : hash_t → hash_t → hash_t
deriving DecidableEq, Repr

/-- Modelled from the spec (§4.1): `combine(a, b)`, the order-sensitive
deterministic mixing function (`lazy_tensors::util::HashCombine`, declared
outside the excerpt). -/
def HashCombine (a b : hash_t) : hash_t := .comb a b

/-- Modelled from the spec (§4.1): the hash of an atomic string datum
(`lazy_tensors::util::Hash` on a string, declared outside the excerpt). -/
def Hash (s : String) : hash_t := .base s

/-- Modelled from the spec (§4.1): the hash of an atomic integer datum
(`lazy_tensors::util::Hash` on an integer, declared outside the excerpt). -/
def HashOfNat (n : Nat) : hash_t := .base (toString n)

/-- Modelled from the spec (§3): `OpKind` is an immutable value
{namespace, op_name}; equality is structural. -/
structure OpKind where
  ns : String
  op_name : String
deriving DecidableEq, Repr

/-- Modelled from the spec (§4.1): `hash(op)` is a pure function of the
OpKind's fields. -/
def OpKind.hash (op : OpKind) : hash_t := .base (op.ns ++ "::" ++ op.op_name)

/-- Modelled from the spec (§3): a `Shape` is either a leaf shape
{element_type, dimensions} or a tuple of Shapes (for multi-output
nodes). -/
inductive Shape where
  | leaf : String → List Int → Shape
  | tuple : List Shape → Shape

mutual

/-- Structural equality of shapes is decidable. -/
def Shape.decEq : (a b : Shape) → Decidable (a = b)
  | .leaf e d, .leaf e' d' =>
    if h1 : e = e' then
      if h2 : d = d' then isTrue (by rw [h1, h2])
      else isFalse (by intro h; injection h; contradiction)
    else isFalse (by intro h; injection h; contradiction)
  | .leaf _ _, .tuple _ => isFalse (fun h => Shape.noConfusion h)
  | .tuple _, .leaf _ _ => isFalse (fun h => Shape.noConfusion h)
  | .tuple l, .tuple l' =>
    match Shape.decEqList l l' with
    | isTrue h => isTrue (by rw [h])
    | isFalse h => isFalse (by intro hh; injection hh; contradiction)

/-- Structural equality of shape lists is decidable. -/
def Shape.decEqList : (a b : List Shape) → Decidable (a = b)
  | [], [] => isTrue rfl
  | [], _ :: _ => isFalse (fun h => List.noConfusion h)
  | _ :: _, [] => isFalse (fun h => List.noConfusion h)
  | x :: xs, y :: ys =>
    match Shape.decEq x y, Shape.decEqList xs ys with
    | isTrue h1, isTrue h2 => isTrue (by rw [h1, h2])
    | isFalse h1, _ => isFalse (by intro h; injection h; contradiction)
    | _, isFalse h2 => isFalse (by intro h; injection h; contradiction)

end

instance : DecidableEq Shape := Shape.decEq

/-- Modelled from the spec: `lazy_tensors::Shape()` — the default-constructed
placeholder shape a deferred-shape node carries before resolution. -/
def defaultShape : Shape := .leaf "" []

/-- Modelled from the spec (§3): a leaf shape's rank equals its dimension
count (`Shape::rank()`, declared outside the excerpt). -/
def Shape.rank : Shape → Nat
  | .leaf _ dims => dims.length
  | .tuple _ => 0

def dimsToString : List Int → String
  | [] => ""
  | [d] => toString d
  | d :: rest => toString d ++ "," ++ dimsToString rest

mutual

/-- Modelled from the spec: `Shape::ToString()` — a string rendering of the
full shape (element type and dimensions), used by `GetOpHash` outside
dynamic mode. -/
def shapeToString : Shape → String
  | .leaf e dims => e ++ "[" ++ dimsToString dims ++ "]"
  | .tuple ss => "(" ++ shapesToString ss ++ ")"

/-- Renders a tuple shape's element list, comma separated. -/
def shapesToString : List Shape → String
  | [] => ""
  | [s] => shapeToString s
  | s :: rest => shapeToString s ++ "," ++ shapesToString rest

end

/-- Modelled from the spec (§3): node metadata {scope, source-location
info for diagnostics}. -/
structure Metadata where
  scope : String
  frame_info : List String
deriving DecidableEq, Repr

/-- Modelled from the spec (§3, §4.2): an `Output`/`Value` operand edge
{node, index}.  The node reference is represented by the data the
TsNode constructor reads from it: the referenced node's dag hash
(`operand.hash()` is `operand.node.dag_hash` per §4.2's graph-hash
contract). -/
structure Output where
  nodeDagHash : hash_t
  index : Nat
deriving DecidableEq, Repr

/-- `operand.hash()` as used by `OperandHashes`: the referenced node's
dag hash (spec §4.2). -/
def Output.hash (o : Output) : hash_t := o.nodeDagHash

/-- Error kinds of spec §7. `InferenceFailure` carries the failing
`shape_fn`'s own message. -/
inductive Err where
  | IndexOutOfRange : Err
  | InvalidArgument : Err
  | TypeMismatch : Err
  | InferenceFailure : String → Err
deriving DecidableEq, Repr

/-- The TsNode state: base-`Node` fields (op, operands, num_outputs,
node_hash, dag_hash, metadata — base class modelled from spec §3) plus
the `shape_` member of TsNode.cpp. -/
structure TsNode where
  op : OpKind
  operands : List Output
  num_outputs : Nat
  node_hash : hash_t
  dag_hash : hash_t
  shape_ : Shape
  metadata : Metadata

/-- Modelled from the spec (§4.2): `Node::hash()` returns `dag_hash`. -/
def TsNode.hash (n : TsNode) : hash_t := n.dag_hash

/-- TsNode.cpp lines 38–45: fold the operands' hashes into `seed`, in
operand order. -/
def OperandHashes (operands : List Output) (seed : hash_t) : hash_t :=
  operands.foldl (fun h operand => HashCombine h operand.hash) seed

/-- TsNode.cpp lines 51–62: the main TsNode constructor.
`node_hash = HashCombine(op.hash(), hash_seed)`;
`dag_hash = OperandHashes(operands, HashCombine(op.hash(), hash_seed))`. -/
def TsNode.make (op : OpKind) (operands : List Output) (shape : Shape)
    (num_outputs : Nat) (hash_seed : hash_t) (md : Metadata) : TsNode :=
  { op := op
    operands := operands
    num_outputs := num_outputs
    node_hash := HashCombine (OpKind.hash op) hash_seed
    dag_hash := OperandHashes operands (HashCombine (OpKind.hash op) hash_seed)
    shape_ := shape
    metadata := md }

/-- TsNode.cpp lines 132–143: `GetOpHash(op, shape, hash_seed)`.  The
dynamic-mode flag stands for `lazy_tensors::Shape::IsDynamicMode()`
(declared outside the excerpt), passed explicitly here. -/
def GetOpHash (dynamicMode : Bool) (op : OpKind) (shape : Shape)
    (hash_seed : hash_t) : hash_t :=
  if dynamicMode then
    HashCombine (HashCombine (OpKind.hash op) (HashOfNat shape.rank)) hash_seed
  else
    HashCombine (HashCombine (OpKind.hash op) (Hash (shapeToString shape))) hash_seed

/-- TsNode.cpp lines 80–85: the leaf (operand-less) TsNode constructor:
`Node(op, num_outputs, GetOpHash(op, shape, hash_seed))`.  The base
`Node(op, num_outputs, node_hash)` constructor (outside the excerpt) is
modelled from spec §4.2: with no operands the node hash is the whole
graph hash, so `dag_hash = node_hash`. -/
def TsNode.makeLeaf (dynamicMode : Bool) (op : OpKind) (shape : Shape)
    (num_outputs : Nat) (hash_seed : hash_t) (md : Metadata) : TsNode :=
  { op := op
    operands := []
    num_outputs := num_outputs
    node_hash := GetOpHash dynamicMode op shape hash_seed
    dag_hash := GetOpHash dynamicMode op shape hash_seed
    shape_ := shape
    metadata := md }

/-- TsNode.cpp line 87: `shape()` returns the stored shape. -/
def TsNode.shape (n : TsNode) : Shape := n.shape_

/-- TsNode.cpp lines 89–95: `shape(output_index)`.  If the stored shape is
a tuple, index into its element list (`tuple_shapes`, modelled from spec
§4.3/§7: out-of-range tuple access fails with IndexOutOfRange); otherwise
`LTC_CHECK_EQ(output_index, 0)` (per spec §7 an InvalidArgument failure). -/
def TsNode.shapeAt (n : TsNode) (output_index : Nat) : Except Err Shape :=
  match n.shape_ with
  | .tuple ss =>
    match ss[output_index]? with
    | some s => .ok s
    | none => .error .IndexOutOfRange
  | s => if output_index = 0 then .ok s else .error .InvalidArgument

/-- Modelled from the spec (§4.4, §2): the bounded, shared ShapeCache
(`lazy_tensors::util::Cache`, declared outside the excerpt): an
LRU-ordered association list (most recently used first) with a capacity
bound. -/
structure ShapeCache where
  capacity : Nat
  entries : List (hash_t × Shape)

/-- First-match association-list lookup over the cache entries. -/
def lookupEntry : List (hash_t × Shape) → hash_t → Option Shape
  | [], _ => none
  | (k', s) :: rest, k => if k' = k then some s else lookupEntry rest k

/-- Removes every entry stored under the given key. -/
def removeEntry : List (hash_t × Shape) → hash_t → List (hash_t × Shape)
  | [], _ => []
  | (k', s) :: rest, k =>
    if k' = k then removeEntry rest k else (k', s) :: removeEntry rest k

/-- Modelled from the spec (§4.4): `Cache::Get(key)` — on a hit the entry
is refreshed to most-recently-used position and its shape returned; a miss
leaves the cache unchanged. -/
def ShapeCache.get (c : ShapeCache) (k : hash_t) : Option Shape × ShapeCache :=
  match lookupEntry c.entries k with
  | some s => (some s, ⟨c.capacity, (k, s) :: removeEntry c.entries k⟩)
  | none => (none, c)

/-- Modelled from the spec (§4.4): `Cache::Add(key, shape)` — if an entry
already exists for the key, return the existing entry unchanged; otherwise
insert at most-recently-used position and evict the least recently used
entry when the capacity bound is exceeded. -/
def ShapeCache.add (c : ShapeCache) (k : hash_t) (s : Shape) :
    Shape × ShapeCache :=
  match lookupEntry c.entries k with
  | some existing => (existing, c)
  | none => (s, ⟨c.capacity, ((k, s) :: c.entries).take c.capacity⟩)

/-- Modelled from the spec (§6): `GetEnvInt(name, default)` — reads a named
configuration value, falling back to the default when unset. -/
def GetEnvInt (envValue : Option Int) (defval : Int) : Int :=
  envValue.getD defval

/-- TsNode.cpp lines 101–106: `GetShapeCache()` builds the process-wide
cache with capacity `GetEnvInt("LTC_IR_SHAPE_CACHE_SIZE", 4096)`.
`envValue` stands for the environment override, `none` when unset. -/
def GetShapeCache (envValue : Option Int) : ShapeCache :=
  ⟨(GetEnvInt envValue 4096).toNat, []⟩

/-- TsNode.cpp lines 108–117: `GetOpShape(shape_fn)` for a node hash `h`:
look `h` up in the cache; on a hit return the cached shape; on a miss
invoke `shape_fn` (whose failure propagates, leaving the cache untouched,
since `Add` only runs after `shape_fn()` returns) and insert its result.
The final component counts how many times `shape_fn` was invoked. -/
def GetOpShape (c : ShapeCache) (h : hash_t)
    (shape_fn : Unit → Except Err Shape) :
    Except Err Shape × ShapeCache × Nat :=
  match ShapeCache.get c h with
  | (some s, c') => (.ok s, c', 0)
  | (none, c') =>
    match shape_fn () with
    | .ok s =>
      let p := ShapeCache.add c' h s
      (.ok p.1, p.2, 1)
    | .error e => (.error e, c', 1)

/-- TsNode.cpp lines 75–78: `SetShapeDeferred(shape_fn)` assigns
`shape_ = GetOpShape(shape_fn)`; on failure the node is unchanged and the
error propagates. -/
def TsNode.SetShapeDeferred (n : TsNode)
    (shape_fn : Unit → Except Err Shape) (c : ShapeCache) :
    Except Err TsNode × ShapeCache × Nat :=
  match GetOpShape c n.hash shape_fn with
  | (.ok s, c', k) => (.ok { n with shape_ := s }, c', k)
  | (.error e, c', k) => (.error e, c', k)

/-- TsNode.cpp lines 64–69: the deferred-shape TsNode constructor:
delegate to the main constructor with the default placeholder shape, then
resolve the shape through `GetOpShape`. -/
def TsNode.makeDeferred (op : OpKind) (operands : List Output)
    (shape_fn : Unit → Except Err Shape) (num_outputs : Nat)
    (hash_seed : hash_t) (md : Metadata) (c : ShapeCache) :
    Except Err TsNode × ShapeCache × Nat :=
  (TsNode.make op operands defaultShape num_outputs hash_seed md).SetShapeDeferred
    shape_fn c

/-- A reference to a node through the generic `Node` base type: either the
backend's concrete `TsNode` variant, or a node of some other concrete
variant (carrying the base-class fields visible through the generic
reference).  This models the `dynamic_cast<const TsNode*>` discrimination
of TsNode.cpp lines 8–36 as a tagged variant. -/
inductive GenericNode where
  | ts : TsNode → GenericNode
  | other : OpKind → Nat → hash_t → hash_t → GenericNode

/-- TsNode.cpp lines 8–13: `GetShapeFromTsOutput(output)` — downcast the
referenced node to TsNode and take `shape(output.index)`; a failed
downcast fails explicitly (spec §7 TypeMismatch). -/
def GetShapeFromTsOutput (node : GenericNode) (index : Nat) :
    Except Err Shape :=
  match node with
  | .ts tsnode => tsnode.shapeAt index
  | .other _ _ _ _ => .error .TypeMismatch

/-- TsNode.cpp lines 15–20: `GetShapeFromTsValue(value)` — identical
discrimination for a `Value` edge. -/
def GetShapeFromTsValue (node : GenericNode) (index : Nat) :
    Except Err Shape :=
  match node with
  | .ts tsnode => tsnode.shapeAt index
  | .other _ _ _ _ => .error .TypeMismatch

/-- TsNode.cpp lines 22–27: `GetShapeFromTsNode(node)` — downcast and take
`shape()`. -/
def GetShapeFromTsNode (node : GenericNode) : Except Err Shape :=
  match node with
  | .ts tsnode => .ok tsnode.shape
  | .other _ _ _ _ => .error .TypeMismatch

/-- TsNode.cpp lines 29–36: `TsNodeSetShapeDeferred(node, shape_fn)` —
downcast and delegate to `SetShapeDeferred`; a failed downcast fails
explicitly without invoking `shape_fn`. -/
def TsNodeSetShapeDeferred (node : GenericNode)
    (shape_fn : Unit → Except Err Shape) (c : ShapeCache) :
    Except Err TsNode × ShapeCache × Nat :=
  match node with
  | .ts tsnode => tsnode.SetShapeDeferred shape_fn c
  | .other _ _ _ _ => (.error .TypeMismatch, c, 0)

/-- Following the claim's words (spec §4.2): `dag_hash` as the node hash
combined once more with the operand fold that itself starts from the node
hash.  Kept separate from the source embedding for comparison. -/
def specDagHashClaimed (op : OpKind) (operands : List Output)
    (hash_seed : hash_t) : hash_t :=
  let node_hash := HashCombine (OpKind.hash op) hash_seed
  HashCombine node_hash
    (operands.foldl (fun acc operand => HashCombine acc operand.nodeDagHash)
      node_hash)

/-- The amended formula: `dag_hash` is exactly the left fold over the
operands' dag hashes seeded with `node_hash`, with no additional outer
combine. -/
def specDagHashAmended (op : OpKind) (operands : List Output)
    (hash_seed : hash_t) : hash_t :=
  let node_hash := HashCombine (OpKind.hash op) hash_seed
  operands.foldl (fun acc operand => HashCombine acc operand.nodeDagHash)
    node_hash

/- Concrete sample data used by closed instances. -/

def sampleOp : OpKind := ⟨"aten", "add"⟩

def sampleSeed : hash_t := .base "S"

def sampleSeed2 : hash_t := .base "S2"

def sampleMd : Metadata := ⟨"", []⟩

def c4tuple : List Shape :=
  [Shape.leaf "f32" [4], Shape.leaf "f32" [8, 8], Shape.leaf "i64" []]

def c4node : TsNode :=
  TsNode.make sampleOp [] (Shape.tuple c4tuple) 3 sampleSeed sampleMd

def c4leafNode : TsNode :=
  TsNode.make sampleOp [] (Shape.leaf "f32" [4]) 1 sampleSeed sampleMd

def c10node : TsNode := TsNode.make sampleOp [] defaultShape 1 sampleSeed sampleMd

def c10fn : Unit → Except Err Shape := fun _ => .ok (Shape.leaf "f32" [2])

def c10cache : ShapeCache := ⟨2, []⟩

def c10res : TsNode := { c10node with shape_ := Shape.leaf "f32" [2] }

def c10cache2 : ShapeCache := ⟨2, [(c10node.hash, Shape.leaf "f32" [2])]⟩

def c2node1 : TsNode :=
  TsNode.make sampleOp [] defaultShape 1 (.base "c2") sampleMd

def c2node2 : TsNode :=
  TsNode.make ⟨"aten", "add"⟩ [] defaultShape 1 (.base "c2") ⟨"loop", []⟩

def c2fn : Unit → Except Err Shape := fun _ => .ok (Shape.leaf "f32" [5])

def c2cache : ShapeCache := ⟨4096, []⟩

def c3node : TsNode :=
  TsNode.make ⟨"aten", "relu"⟩ [] (Shape.leaf "f32" [2]) 1 (.base "c3") sampleMd

def c3fn : Unit → Except Err Shape := fun _ => .ok (Shape.leaf "f32" [3])

def c3cache : ShapeCache := ⟨2, []⟩

def c3mut : TsNode := { c3node with shape_ := Shape.leaf "f32" [3] }

def c3wnode : TsNode :=
  TsNode.make ⟨"aten", "exp"⟩ [] defaultShape 1 (.base "c3w") sampleMd

def c3wfn : Unit → Except Err Shape := fun _ => .ok (Shape.leaf "f32" [7])

def c3wres : TsNode := { c3wnode with shape_ := Shape.leaf "f32" [7] }

def c3wcache1 : ShapeCache := ⟨2, [(c3wnode.hash, Shape.leaf "f32" [7])]⟩

def c5node : TsNode :=
  TsNode.make ⟨"aten", "mm"⟩ [] defaultShape 1 (.base "c5") sampleMd

def c5fail : Unit → Except Err Shape :=
  fun _ => .error (Err.InferenceFailure "shape inference rejected inputs")

def c5ok : Unit → Except Err Shape := fun _ => .ok (Shape.leaf "f32" [6, 6])

def c5cache : ShapeCache := ⟨4096, []⟩

def c6cache : ShapeCache := ⟨1, []⟩

def c7A : TsNode :=
  TsNode.makeLeaf false ⟨"aten", "constant"⟩ (Shape.leaf "f32" [4, 4]) 1
    (.base "A") sampleMd

def c7outA : Output := ⟨c7A.hash, 0⟩

def c7B : TsNode :=
  TsNode.make ⟨"aten", "mul"⟩ [c7outA, c7outA] (Shape.leaf "f32" [4, 4]) 1
    sampleSeed sampleMd

def c7B2 : TsNode :=
  TsNode.make ⟨"aten", "mul"⟩ [c7outA, c7outA] (Shape.leaf "f32" [4, 4]) 1
    sampleSeed ⟨"other", []⟩

def c7B3 : TsNode :=
  TsNode.make ⟨"aten", "mul"⟩ [c7outA, c7outA] (Shape.leaf "f32" [4, 4]) 1
    sampleSeed2 sampleMd

def c9op : OpKind := ⟨"aten", "t"⟩

def c9s1 : Shape := Shape.leaf "f32" [2, 3]

def c9s2 : Shape := Shape.leaf "f64" [9, 9]

def c6kvs : List (hash_t × Shape) :=
  [(.base "k1", Shape.leaf "f32" [1]), (.base "k2", Shape.leaf "f32" [2])]

/-- Folds a list of (key, shape) insertions into the cache through
`ShapeCache.add`, in order. -/
def insertAll (c : ShapeCache) (kvs : List (hash_t × Shape)) : ShapeCache :=
  kvs.foldl (fun acc kv => (acc.add kv.1 kv.2).2) c

/- Basic cache lemmas. -/

/-- Lookup at a matching head entry. -/
theorem lookup_cons_self (k : hash_t) (s : Shape) (l : List (hash_t × Shape)) :
    lookupEntry ((k, s) :: l) k = some s := by
  simp [lookupEntry]

/-- Lookup at a freshly consed entry survives truncation to a positive
capacity. -/
theorem lookup_take_cons {cap : Nat} (hcap : 0 < cap) (k : hash_t) (s : Shape)
    (l : List (hash_t × Shape)) :
    lookupEntry (((k, s) :: l).take cap) k = some s := by
  cases cap with
  | zero => exact absurd hcap (by omega)
  | succ m => simp [List.take_succ_cons, lookupEntry]

/-- A lookup that succeeds in a truncated list succeeds in the full list. -/
theorem lookup_take {l : List (hash_t × Shape)} {nn : Nat} {k : hash_t}
    {s : Shape} (h : lookupEntry (l.take nn) k = some s) :
    lookupEntry l k = some s := by
  induction l generalizing nn with
  | nil => simp [lookupEntry] at h
  | cons hd tl ih =>
    cases nn with
    | zero => simp [lookupEntry] at h
    | succ m =>
      rcases hd with ⟨k', s'⟩
      rw [List.take_succ_cons] at h
      by_cases hk : k' = k
      · simpa [lookupEntry, hk] using h
      · simp only [lookupEntry, hk, if_false] at h ⊢
        exact ih h

/-- A successful lookup means the key occurs among the stored keys. -/
theorem mem_of_lookup {l : List (hash_t × Shape)} {k : hash_t} {s : Shape}
    (h : lookupEntry l k = some s) : k ∈ l.map Prod.fst := by
  induction l with
  | nil => simp [lookupEntry] at h
  | cons hd tl ih =>
    rcases hd with ⟨k', s'⟩
    by_cases hk : k' = k
    · simp [hk]
    · simp only [lookupEntry, hk, if_false] at h
      simp only [List.map_cons, List.mem_cons]
      exact Or.inr (ih h)

/-- `Get` on a hit. -/
theorem get_eq_hit {c : ShapeCache} {k : hash_t} {s : Shape}
    (hl : lookupEntry c.entries k = some s) :
    c.get k = (some s, ⟨c.capacity, (k, s) :: removeEntry c.entries k⟩) := by
  unfold ShapeCache.get
  rw [hl]

/-- `Get` on a miss leaves the cache unchanged. -/
theorem get_eq_miss {c : ShapeCache} {k : hash_t}
    (hl : lookupEntry c.entries k = none) : c.get k = (none, c) := by
  unfold ShapeCache.get
  rw [hl]

/-- `Add` on a key already present returns the existing entry unchanged. -/
theorem add_eq_hit {c : ShapeCache} {k : hash_t} {s0 : Shape} (s : Shape)
    (hl : lookupEntry c.entries k = some s0) : c.add k s = (s0, c) := by
  unfold ShapeCache.add
  rw [hl]

/-- `Add` on a fresh key inserts at the most-recently-used position and
truncates to capacity. -/
theorem add_eq_miss {c : ShapeCache} {k : hash_t} (s : Shape)
    (hl : lookupEntry c.entries k = none) :
    c.add k s = (s, ⟨c.capacity, ((k, s) :: c.entries).take c.capacity⟩) := by
  unfold ShapeCache.add
  rw [hl]

/-- `Add` never changes the configured capacity. -/
theorem add_capacity_eq (c : ShapeCache) (k : hash_t) (s : Shape) :
    ((c.add k s).2).capacity = c.capacity := by
  cases hl : lookupEntry c.entries k with
  | some s0 => rw [add_eq_hit s hl]
  | none => rw [add_eq_miss s hl]

/-- `Add` keeps the entry count within the capacity bound. -/
theorem add_length_le (c : ShapeCache) (k : hash_t) (s : Shape)
    (h : c.entries.length ≤ c.capacity) :
    ((c.add k s).2).entries.length ≤ c.capacity := by
  cases hl : lookupEntry c.entries k with
  | some s0 => rw [add_eq_hit s hl]; exact h
  | none =>
    rw [add_eq_miss s hl]
    simp

/-- `insertAll` never changes the configured capacity. -/
theorem insertAll_capacity (kvs : List (hash_t × Shape)) (c : ShapeCache) :
    (insertAll c kvs).capacity = c.capacity := by
  induction kvs generalizing c with
  | nil => rfl
  | cons kv rest ih =>
    have h : insertAll c (kv :: rest) = insertAll ((c.add kv.1 kv.2).2) rest :=
      rfl
    rw [h, ih, add_capacity_eq]

/-- `insertAll` keeps the entry count within the capacity bound. -/
theorem insertAll_length_le (kvs : List (hash_t × Shape)) (c : ShapeCache)
    (h : c.entries.length ≤ c.capacity) :
    (insertAll c kvs).entries.length ≤ c.capacity := by
  induction kvs generalizing c with
  | nil => exact h
  | cons kv rest ih =>
    have heq : insertAll c (kv :: rest) = insertAll ((c.add kv.1 kv.2).2) rest :=
      rfl
    rw [heq]
    have h2 := add_length_le c kv.1 kv.2 h
    rw [← add_capacity_eq c kv.1 kv.2] at h2
    have h3 := ih ((c.add kv.1 kv.2).2) h2
    rwa [add_capacity_eq] at h3

/-- `Add` preserves key-coherence: if every cached value under `k` is `s`
and the inserted pair agrees, every cached value under `k` is still `s`. -/
theorem add_coherent {c : ShapeCache} {k : hash_t} {s : Shape}
    (kv : hash_t × Shape)
    (hinv : ∀ s', lookupEntry c.entries k = some s' → s' = s)
    (hkv : kv.1 = k → kv.2 = s) :
    ∀ s', lookupEntry ((c.add kv.1 kv.2).2).entries k = some s' → s' = s := by
  intro s' h
  cases hl : lookupEntry c.entries kv.1 with
  | some s0 =>
    rw [add_eq_hit kv.2 hl] at h
    exact hinv s' h
  | none =>
    rw [add_eq_miss kv.2 hl] at h
    have h2 := lookup_take h
    by_cases hk : kv.1 = k
    · rw [hk] at h2
      rw [lookup_cons_self] at h2
      cases h2
      exact (hkv hk).symm ▸ rfl
    · simp only [lookupEntry, hk, if_false] at h2
      exact hinv s' h2

/-- `insertAll` preserves key-coherence. -/
theorem insertAll_coherent {k : hash_t} {s : Shape} :
    ∀ (kvs : List (hash_t × Shape)) (c : ShapeCache),
    (∀ s', lookupEntry c.entries k = some s' → s' = s) →
    (∀ kv ∈ kvs, kv.1 = k → kv.2 = s) →
    ∀ s', lookupEntry (insertAll c kvs).entries k = some s' → s' = s := by
  intro kvs
  induction kvs with
  | nil => intro c hinv _; exact hinv
  | cons kv rest ih =>
    intro c hinv hall
    have heq : insertAll c (kv :: rest) = insertAll ((c.add kv.1 kv.2).2) rest :=
      rfl
    rw [heq]
    exact ih _ (add_coherent kv hinv (hall kv (List.mem_cons_self kv rest)))
      (fun kv' h' => hall kv' (List.mem_cons_of_mem kv h'))

/- `GetOpShape` case analyses. -/

/-- `GetOpShape` on a cache hit adopts the cached shape without invoking
`shape_fn`. -/
theorem getOpShape_hit {c : ShapeCache} {hsh : hash_t} {s : Shape}
    (f : Unit → Except Err Shape) (hl : lookupEntry c.entries hsh = some s) :
    GetOpShape c hsh f =
      (.ok s, ⟨c.capacity, (hsh, s) :: removeEntry c.entries hsh⟩, 0) := by
  unfold GetOpShape
  rw [get_eq_hit hl]

/-- `GetOpShape` on a cache miss with a succeeding `shape_fn` invokes it
once and inserts its result. -/
theorem getOpShape_miss_ok {c : ShapeCache} {hsh : hash_t} {s : Shape}
    {f : Unit → Except Err Shape} (hl : lookupEntry c.entries hsh = none)
    (hf : f () = .ok s) :
    GetOpShape c hsh f =
      (.ok s, ⟨c.capacity, ((hsh, s) :: c.entries).take c.capacity⟩, 1) := by
  unfold GetOpShape
  rw [get_eq_miss hl, hf]
  simp [add_eq_miss s hl]

/-- `GetOpShape` on a cache miss with a failing `shape_fn` propagates the
failure and leaves the cache unchanged. -/
theorem getOpShape_miss_err {c : ShapeCache} {hsh : hash_t} {e : Err}
    {f : Unit → Except Err Shape} (hl : lookupEntry c.entries hsh = none)
    (hf : f () = .error e) :
    GetOpShape c hsh f = (.error e, c, 1) := by
  unfold GetOpShape
  rw [get_eq_miss hl, hf]

/- Elimination helpers for `SetShapeDeferred` runs. -/

/-- A successful `GetOpShape` determines the `SetShapeDeferred` result. -/
theorem setShapeDeferred_ok_elim {n : TsNode} {f : Unit → Except Err Shape}
    {c c2 : ShapeCache} {s : Shape} {k2 : Nat}
    (hg : GetOpShape c n.hash f = (.ok s, c2, k2)) :
    n.SetShapeDeferred f c = (.ok { n with shape_ := s }, c2, k2) := by
  unfold TsNode.SetShapeDeferred
  rw [hg]

/-- A failing `GetOpShape` determines the `SetShapeDeferred` result. -/
theorem setShapeDeferred_err_elim {n : TsNode} {f : Unit → Except Err Shape}
    {c c2 : ShapeCache} {e : Err} {k2 : Nat}
    (hg : GetOpShape c n.hash f = (.error e, c2, k2)) :
    n.SetShapeDeferred f c = (.error e, c2, k2) := by
  unfold TsNode.SetShapeDeferred
  rw [hg]

/-- C1 (counterexample): on a node with no operands the constructor's
`dag_hash` is the fold seeded with `node_hash` — i.e. `node_hash` itself —
not `combine(node_hash, node_hash)` as the claim's formula requires. -/
theorem c1_counterexample :
    (TsNode.make sampleOp [] defaultShape 1 sampleSeed sampleMd).dag_hash ≠
      specDagHashClaimed sampleOp [] sampleSeed := by decide

/-- C1 (amended): the constructor computes
`node_hash = combine(hash(op), extra_seed)` and `dag_hash` is exactly
`fold_left(operands, seed = node_hash, step = (acc, operand) ↦
combine(acc, operand_dag_hash))`, with operands taken in order and no
additional outer combine. -/
theorem c1_dag_hash_formula (op : OpKind) (operands : List Output)
    (shape : Shape) (num_outputs : Nat) (hash_seed : hash_t) (md : Metadata) :
    (TsNode.make op operands shape num_outputs hash_seed md).node_hash =
        HashCombine (OpKind.hash op) hash_seed ∧
    (TsNode.make op operands shape num_outputs hash_seed md).dag_hash =
        specDagHashAmended op operands hash_seed :=
  ⟨rfl, rfl⟩

/-- C4: `shape(index)` on a tuple-shaped node returns the index-th tuple
element and fails with IndexOutOfRange when the index reaches the tuple's
arity; on a leaf-shaped node it succeeds exactly at index 0 and fails with
InvalidArgument at any other index. -/
theorem c4_shape_indexing (n : TsNode) (index : Nat) :
    (∀ ss, n.shape_ = Shape.tuple ss →
      (∀ h : index < ss.length,
          n.shapeAt index = .ok (ss.get ⟨index, h⟩)) ∧
      (ss.length ≤ index → n.shapeAt index = .error Err.IndexOutOfRange)) ∧
    (∀ etype dims, n.shape_ = Shape.leaf etype dims →
      (index = 0 → n.shapeAt index = .ok (Shape.leaf etype dims)) ∧
      (index ≠ 0 → n.shapeAt index = .error Err.InvalidArgument)) := by
  constructor
  · intro ss hss
    constructor
    · intro h
      simp [TsNode.shapeAt, hss, List.getElem?_eq_getElem h]
    · intro h
      simp [TsNode.shapeAt, hss, List.getElem?_eq_none h]
  · intro etype dims hld
    constructor
    · intro h0
      simp [TsNode.shapeAt, hld, h0]
    · intro hne
      simp [TsNode.shapeAt, hld, hne]

/-- C4 (witness): a node with `num_outputs = 3` and a three-element tuple
shape succeeds at indices 0, 1, 2 and fails at index 3; a leaf-shaped node
succeeds at 0 and fails at 1. -/
theorem c4_witness :
    c4node.shapeAt 0 = .ok (Shape.leaf "f32" [4]) ∧
    c4node.shapeAt 1 = .ok (Shape.leaf "f32" [8, 8]) ∧
    c4node.shapeAt 2 = .ok (Shape.leaf "i64" []) ∧
    c4node.shapeAt 3 = .error Err.IndexOutOfRange ∧
    c4leafNode.shapeAt 0 = .ok (Shape.leaf "f32" [4]) ∧
    c4leafNode.shapeAt 1 = .error Err.InvalidArgument := by
  refine ⟨?_, ?_, ?_, ?_, ?_, ?_⟩
  · exact ((c4_shape_indexing c4node 0).1 c4tuple rfl).1 (by decide)
  · exact ((c4_shape_indexing c4node 1).1 c4tuple rfl).1 (by decide)
  · exact ((c4_shape_indexing c4node 2).1 c4tuple rfl).1 (by decide)
  · exact ((c4_shape_indexing c4node 3).1 c4tuple rfl).2 (by decide)
  · exact ((c4_shape_indexing c4leafNode 0).2 "f32" [4] rfl).1 rfl
  · exact ((c4_shape_indexing c4leafNode 1).2 "f32" [4] rfl).2 (by decide)

/-- C8: every generic-base access (shape from an Output, from a Value,
from a Node, and deferred-shape resolution through a generic node pointer)
fails explicitly with TypeMismatch when the referenced node is not the
backend's concrete TsNode variant — and the deferred path does so without
invoking `shape_fn` or touching the cache. -/
theorem c8_type_mismatch (op : OpKind) (num_outputs : Nat) (nh dh : hash_t)
    (index : Nat) (shape_fn : Unit → Except Err Shape) (c : ShapeCache) :
    GetShapeFromTsOutput (.other op num_outputs nh dh) index =
        .error Err.TypeMismatch ∧
    GetShapeFromTsValue (.other op num_outputs nh dh) index =
        .error Err.TypeMismatch ∧
    GetShapeFromTsNode (.other op num_outputs nh dh) =
        .error Err.TypeMismatch ∧
    TsNodeSetShapeDeferred (.other op num_outputs nh dh) shape_fn c =
        (.error Err.TypeMismatch, c, 0) :=
  ⟨rfl, rfl, rfl, rfl⟩

/-- C10 (frame): a successful `SetShapeDeferred` changes only the stored
shape — op, operands, num_outputs, node_hash, dag_hash, metadata and
`hash()` are identical before and after. -/
theorem c10_set_shape_deferred_frame (n : TsNode)
    (shape_fn : Unit → Except Err Shape) (c : ShapeCache) (m : TsNode)
    (c' : ShapeCache) (k : Nat)
    (h : n.SetShapeDeferred shape_fn c = (.ok m, c', k)) :
    m.op = n.op ∧ m.operands = n.operands ∧ m.num_outputs = n.num_outputs ∧
    m.node_hash = n.node_hash ∧ m.dag_hash = n.dag_hash ∧
    m.metadata = n.metadata ∧ m.hash = n.hash := by
  rcases hg : GetOpShape c n.hash shape_fn with ⟨r, c2, k2⟩
  cases r with
  | ok s =>
    rw [setShapeDeferred_ok_elim hg] at h
    simp only [Prod.mk.injEq, Except.ok.injEq] at h
    obtain ⟨hm, -, -⟩ := h
    subst hm
    exact ⟨rfl, rfl, rfl, rfl, rfl, rfl, rfl⟩
  | error e =>
    rw [setShapeDeferred_err_elim hg] at h
    simp at h

/-- C10 (witness): a concrete deferred resolution on a fresh node leaves
every field but the shape unchanged. -/
theorem c10_witness :
    c10res.op = c10node.op ∧ c10res.operands = c10node.operands ∧
    c10res.num_outputs = c10node.num_outputs ∧
    c10res.node_hash = c10node.node_hash ∧
    c10res.dag_hash = c10node.dag_hash ∧
    c10res.metadata = c10node.metadata ∧ c10res.hash = c10node.hash :=
  c10_set_shape_deferred_frame c10node c10fn c10cache c10res c10cache2 1 rfl

/-- C2: deferred shape resolution memoizes by the node's hash: a cache hit
adopts the cached shape with zero `shape_fn` invocations; a miss invokes
`shape_fn` exactly once, stores the result in the node and inserts it
under the hash; and two sequential resolutions on nodes with equal hashes
invoke `shape_fn` at most once in total and leave both nodes with
structurally equal shapes. -/
theorem c2_shape_memoization (n : TsNode) (f : Unit → Except Err Shape)
    (c : ShapeCache) (s : Shape) (hf : f () = .ok s) (hcap : 0 < c.capacity) :
    (∀ s0, lookupEntry c.entries n.hash = some s0 →
      ∃ c1, n.SetShapeDeferred f c = (.ok { n with shape_ := s0 }, c1, 0)) ∧
    (lookupEntry c.entries n.hash = none →
      ∃ c1, n.SetShapeDeferred f c = (.ok { n with shape_ := s }, c1, 1) ∧
        lookupEntry c1.entries n.hash = some s) ∧
    (∀ n2 : TsNode, n2.hash = n.hash →
      ∃ m1 c1 k1 m2 c2 k2,
        n.SetShapeDeferred f c = (.ok m1, c1, k1) ∧
        n2.SetShapeDeferred f c1 = (.ok m2, c2, k2) ∧
        k1 + k2 ≤ 1 ∧ m1.shape_ = m2.shape_) := by
  refine ⟨?_, ?_, ?_⟩
  · intro s0 h
    exact ⟨_, setShapeDeferred_ok_elim (getOpShape_hit f h)⟩
  · intro h
    refine ⟨_, setShapeDeferred_ok_elim (getOpShape_miss_ok h hf), ?_⟩
    exact lookup_take_cons hcap n.hash s c.entries
  · intro n2 hn2
    cases hl : lookupEntry c.entries n.hash with
    | some s0 =>
      have r1 := setShapeDeferred_ok_elim (getOpShape_hit f hl)
      have hl2 : lookupEntry (ShapeCache.mk c.capacity
          ((n.hash, s0) :: removeEntry c.entries n.hash)).entries
          n2.hash = some s0 := by
        rw [hn2]; exact lookup_cons_self n.hash s0 _
      have r2 := setShapeDeferred_ok_elim (getOpShape_hit f hl2)
      exact ⟨_, _, _, _, _, _, r1, r2, by omega, rfl⟩
    | none =>
      have r1 := setShapeDeferred_ok_elim (getOpShape_miss_ok hl hf)
      have hl2 : lookupEntry (ShapeCache.mk c.capacity
          (((n.hash, s) :: c.entries).take c.capacity)).entries
          n2.hash = some s := by
        rw [hn2]; exact lookup_take_cons hcap n.hash s c.entries
      have r2 := setShapeDeferred_ok_elim (getOpShape_hit f hl2)
      exact ⟨_, _, _, _, _, _, r1, r2, by omega, rfl⟩

/-- C2 (witness): two fresh same-hash nodes resolved sequentially against
an empty default-capacity cache: one `shape_fn` call in total, equal
shapes. -/
theorem c2_witness :
    ∃ m1 c1 k1 m2 c2 k2,
      c2node1.SetShapeDeferred c2fn c2cache = (.ok m1, c1, k1) ∧
      c2node2.SetShapeDeferred c2fn c1 = (.ok m2, c2, k2) ∧
      k1 + k2 ≤ 1 ∧ m1.shape_ = m2.shape_ :=
  (c2_shape_memoization c2node1 c2fn c2cache (Shape.leaf "f32" [5]) rfl
    (by decide)).2.2 c2node2 rfl

/-- C3 (counterexample): a node whose shape was set eagerly at
construction can still have its stored shape changed by a subsequent
`SetShapeDeferred` whose shape function resolves (through an empty cache)
to a different shape. -/
theorem c3_counterexample :
    (c3node.SetShapeDeferred c3fn c3cache).1 = .ok c3mut ∧
    c3mut.shape_ ≠ c3node.shape_ := by
  constructor
  · rfl
  · decide

/-- C3 (amended): once a node's shape has been set by a deferred
resolution, re-running the deferred resolution with the same shape
function on the resulting cache (of positive capacity) returns the node
unchanged — the shape stays equal to the one first set.  (Unlike the
original claim, `SetShapeDeferred` is not in general a no-op on a node
whose shape was set eagerly: it overwrites the shape whenever its shape
function resolves to something else, as the counterexample shows.) -/
theorem c3_amended_shape_stable (n : TsNode) (f : Unit → Except Err Shape)
    (c : ShapeCache) (m1 : TsNode) (c1 : ShapeCache) (k1 : Nat)
    (hcap : 0 < c.capacity)
    (h1 : n.SetShapeDeferred f c = (.ok m1, c1, k1)) :
    ∃ c2 k2, m1.SetShapeDeferred f c1 = (.ok m1, c2, k2) := by
  cases hl : lookupEntry c.entries n.hash with
  | some s0 =>
    rw [setShapeDeferred_ok_elim (getOpShape_hit f hl)] at h1
    simp only [Prod.mk.injEq, Except.ok.injEq] at h1
    obtain ⟨hm, hc, -⟩ := h1
    subst hm
    subst hc
    have hl2 : lookupEntry ((n.hash, s0) :: removeEntry c.entries n.hash)
        (TsNode.hash { n with shape_ := s0 }) = some s0 :=
      lookup_cons_self n.hash s0 _
    exact ⟨_, _, setShapeDeferred_ok_elim (getOpShape_hit f hl2)⟩
  | none =>
    cases hfr : f () with
    | error e =>
      rw [setShapeDeferred_err_elim (getOpShape_miss_err hl hfr)] at h1
      simp at h1
    | ok s =>
      rw [setShapeDeferred_ok_elim (getOpShape_miss_ok hl hfr)] at h1
      simp only [Prod.mk.injEq, Except.ok.injEq] at h1
      obtain ⟨hm, hc, -⟩ := h1
      subst hm
      subst hc
      have hl2 : lookupEntry (((n.hash, s) :: c.entries).take c.capacity)
          (TsNode.hash { n with shape_ := s }) = some s :=
        lookup_take_cons hcap n.hash s c.entries
      exact ⟨_, _, setShapeDeferred_ok_elim (getOpShape_hit f hl2)⟩

/-- C3 (witness): a concrete node resolved once and then re-resolved with
the same shape function comes back unchanged. -/
theorem c3_witness :
    ∃ c2 k2, c3wres.SetShapeDeferred c3wfn c3wcache1 = (.ok c3wres, c2, k2) :=
  c3_amended_shape_stable c3wnode c3wfn ⟨2, []⟩ c3wres c3wcache1 1 (by decide)
    rfl

/-- C5: if the shape function of a deferred resolution fails, the failure
propagates to the caller, the cache is returned unchanged (no entry is
inserted for the node's hash), and a later resolution for the same hash
still invokes its own shape function (invocation count 1) rather than
adopting a poisoned entry. -/
theorem c5_failure_no_poison (n : TsNode) (f f2 : Unit → Except Err Shape)
    (c : ShapeCache) (e : Err) (s : Shape)
    (hmiss : lookupEntry c.entries n.hash = none)
    (hf : f () = .error e) (hf2 : f2 () = .ok s) :
    n.SetShapeDeferred f c = (.error e, c, 1) ∧
    ∃ c2, n.SetShapeDeferred f2 c = (.ok { n with shape_ := s }, c2, 1) :=
  ⟨setShapeDeferred_err_elim (getOpShape_miss_err hmiss hf),
    ⟨_, setShapeDeferred_ok_elim (getOpShape_miss_ok hmiss hf2)⟩⟩

/-- C5 (witness): a concrete failing resolution leaves the empty cache
empty and errors; a retry with a succeeding function computes afresh. -/
theorem c5_witness :
    c5node.SetShapeDeferred c5fail c5cache =
      (.error (Err.InferenceFailure "shape inference rejected inputs"),
        c5cache, 1) ∧
    ∃ c2, c5node.SetShapeDeferred c5ok c5cache =
      (.ok { c5node with shape_ := Shape.leaf "f32" [6, 6] }, c2, 1) :=
  c5_failure_no_poison c5node c5fail c5ok c5cache
    (Err.InferenceFailure "shape inference rejected inputs")
    (Shape.leaf "f32" [6, 6]) rfl rfl rfl

/-- C6: the shape cache's capacity defaults to 4096 entries and is
overridable through the named configuration value; inserting more distinct
keys than the capacity leaves at least one inserted key uncached; and a
lookup never returns a shape other than the one every producer computed
for that key. -/
theorem c6_cache_bound :
    (GetShapeCache none).capacity = 4096 ∧
    (∀ v : Int, (GetShapeCache (some v)).capacity = v.toNat) ∧
    (∀ (c : ShapeCache) (kvs : List (hash_t × Shape)),
      c.entries.length ≤ c.capacity → (kvs.map Prod.fst).Nodup →
      c.capacity < kvs.length →
      ∃ kv ∈ kvs, lookupEntry (insertAll c kvs).entries kv.1 = none) ∧
    (∀ (c : ShapeCache) (kvs : List (hash_t × Shape)) (k : hash_t) (s : Shape),
      (∀ s', lookupEntry c.entries k = some s' → s' = s) →
      (∀ kv ∈ kvs, kv.1 = k → kv.2 = s) →
      ∀ s', lookupEntry (insertAll c kvs).entries k = some s' → s' = s) := by
  refine ⟨rfl, fun v => rfl, ?_, ?_⟩
  · intro c kvs hlen hnd hcap
    by_contra hall
    push_neg at hall
    have hsub : kvs.map Prod.fst ⊆ (insertAll c kvs).entries.map Prod.fst := by
      intro x hx
      rcases List.mem_map.mp hx with ⟨kv, hkv, rfl⟩
      cases hl : lookupEntry (insertAll c kvs).entries kv.1 with
      | none => exact absurd hl (hall kv hkv)
      | some s => exact mem_of_lookup hl
    have hle := (List.subperm_of_subset hnd hsub).length_le
    rw [List.length_map, List.length_map] at hle
    have hfin := insertAll_length_le kvs c hlen
    omega
  · intro c kvs k s hinv hall
    exact insertAll_coherent kvs c hinv hall

/-- C6 (witness): with capacity 1, inserting two distinct keys leaves one
of them uncached; the default capacity is 4096. -/
theorem c6_witness :
    (GetShapeCache none).capacity = 4096 ∧
    (∃ kv ∈ c6kvs, lookupEntry (insertAll c6cache c6kvs).entries kv.1 = none) :=
  ⟨c6_cache_bound.1,
    c6_cache_bound.2.2.1 c6cache c6kvs (by decide) (by decide) (by decide)⟩

/-- `OperandHashes` depends on the operands only through their hashes. -/
theorem operandHashes_map_eq {ops1 ops2 : List Output}
    (h : ops1.map Output.hash = ops2.map Output.hash) (seed : hash_t) :
    OperandHashes ops1 seed = OperandHashes ops2 seed := by
  unfold OperandHashes
  calc ops1.foldl (fun acc operand => HashCombine acc operand.hash) seed
      = (ops1.map Output.hash).foldl HashCombine seed :=
        (List.foldl_map Output.hash HashCombine ops1 seed).symm
    _ = (ops2.map Output.hash).foldl HashCombine seed := by rw [h]
    _ = ops2.foldl (fun acc operand => HashCombine acc operand.hash) seed :=
        List.foldl_map Output.hash HashCombine ops2 seed

/-- `OperandHashes` is injective in its seed. -/
theorem operandHashes_seed_inj (ops : List Output) :
    ∀ a b : hash_t, OperandHashes ops a = OperandHashes ops b → a = b := by
  induction ops with
  | nil => intro a b h; exact h
  | cons o rest ih =>
    intro a b h
    have h2 := ih (HashCombine a o.hash) (HashCombine b o.hash) h
    simp only [HashCombine, hash_t.comb.injEq] at h2
    exact h2.1

/-- C7: node hashing is deterministic and seed-sensitive: nodes built with
the same OpKind, the same scalar seed, and operand sequences identical by
dag hash get equal `hash()` — regardless of shape, output count or
metadata — while changing only the scalar seed changes `hash()`. -/
theorem c7_hash_deterministic_seed_sensitive (op : OpKind)
    (ops1 ops2 : List Output) (shape1 shape2 : Shape) (n1 n2 : Nat)
    (seed seed' : hash_t) (md1 md2 : Metadata) :
    (ops1.map Output.hash = ops2.map Output.hash →
      (TsNode.make op ops1 shape1 n1 seed md1).hash =
      (TsNode.make op ops2 shape2 n2 seed md2).hash) ∧
    (seed ≠ seed' →
      (TsNode.make op ops1 shape1 n1 seed md1).hash ≠
      (TsNode.make op ops1 shape1 n1 seed' md1).hash) := by
  constructor
  · intro h
    exact operandHashes_map_eq h (HashCombine (OpKind.hash op) seed)
  · intro hne heq
    apply hne
    have h2 := operandHashes_seed_inj ops1
      (HashCombine (OpKind.hash op) seed)
      (HashCombine (OpKind.hash op) seed') heq
    simp only [HashCombine, hash_t.comb.injEq] at h2
    exact h2.2

/-- C7 (witness): the spec's scenario — B and B′ built over (A, A) with
the same op and seed S share a hash; a node built over (A, A) with seed S′
does not. -/
theorem c7_witness : c7B.hash = c7B2.hash ∧ c7B.hash ≠ c7B3.hash :=
  ⟨(c7_hash_deterministic_seed_sensitive ⟨"aten", "mul"⟩ [c7outA, c7outA]
      [c7outA, c7outA] (Shape.leaf "f32" [4, 4]) (Shape.leaf "f32" [4, 4]) 1 1
      sampleSeed sampleSeed2 sampleMd ⟨"other", []⟩).1 rfl,
    (c7_hash_deterministic_seed_sensitive ⟨"aten", "mul"⟩ [c7outA, c7outA]
      [c7outA, c7outA] (Shape.leaf "f32" [4, 4]) (Shape.leaf "f32" [4, 4]) 1 1
      sampleSeed sampleSeed2 sampleMd ⟨"other", []⟩).2 (by decide)⟩

/-- C9: in dynamic-shape mode the leaf-node hash depends on the shape only
through its rank — leaf nodes with the same op and seed whose shapes have
equal rank but different dimensions or element types hash equally; with
dynamic mode off, the full string rendering of the shape participates, so
differently rendered shapes hash differently. -/
theorem c9_dynamic_mode_rank_hash (op : OpKind) (e1 e2 : String)
    (d1 d2 : List Int) (num_outputs : Nat) (hash_seed : hash_t)
    (md : Metadata) :
    (d1.length = d2.length →
      (TsNode.makeLeaf true op (Shape.leaf e1 d1) num_outputs hash_seed
        md).hash =
      (TsNode.makeLeaf true op (Shape.leaf e2 d2) num_outputs hash_seed
        md).hash) ∧
    (shapeToString (Shape.leaf e1 d1) ≠ shapeToString (Shape.leaf e2 d2) →
      (TsNode.makeLeaf false op (Shape.leaf e1 d1) num_outputs hash_seed
        md).hash ≠
      (TsNode.makeLeaf false op (Shape.leaf e2 d2) num_outputs hash_seed
        md).hash) := by
  constructor
  · intro h
    simp [TsNode.makeLeaf, TsNode.hash, GetOpHash, Shape.rank, HashOfNat, h]
  · intro hne heq
    apply hne
    simp only [TsNode.makeLeaf, TsNode.hash, GetOpHash, if_false,
      Bool.false_eq_true, HashCombine, Hash, hash_t.comb.injEq,
      hash_t.base.injEq] at heq
    exact heq.1.2

/-- C9 (witness): `f32[2,3]` and `f64[9,9]` have rank 2, so the same op
and seed give equal leaf hashes in dynamic mode and different leaf hashes
otherwise. -/
theorem c9_witness :
    (TsNode.makeLeaf true c9op c9s1 1 sampleSeed sampleMd).hash =
      (TsNode.makeLeaf true c9op c9s2 1 sampleSeed sampleMd).hash ∧
    (TsNode.makeLeaf false c9op c9s1 1 sampleSeed sampleMd).hash ≠
      (TsNode.makeLeaf false c9op c9s2 1 sampleSeed sampleMd).hash :=
  ⟨(c9_dynamic_mode_rank_hash c9op "f32" "f64" [2, 3] [9, 9] 1 sampleSeed
      sampleMd).1 rfl,
    (c9_dynamic_mode_rank_hash c9op "f32" "f64" [2, 3] [9, 9] 1 sampleSeed
      sampleMd).2 (by decide)⟩

end LazyIR
